import Mathlib

/-!
A shallow embedding of the worker-pool / queue-dispatch engine of the
`orrb` repository (`orrb/queue_executor.py` and `orrb/remote_renderer.py`),
together with theorems settling the behavioural claims about it.

Python dictionaries are modelled as insertion-ordered association lists,
machine integers as `Nat`/`Int` with explicit truncation where the source
truncates, fallible code as `Option`/`Except`, and the thread-pool loop of
`QueueWorkerABC.run` as an explicit small-step relation.
-/

namespace Orrb

/-! ## Queue executor (`orrb/queue_executor.py`)

A `QueueTask` pairs a workload with a destination queue; destinations are
modelled by numeric identifiers.  The pool state carries the shared input
queue, the in-flight slot of every worker, a log of tasks whose result has
already been delivered, and the contents of every destination queue. -/

structure QueueTask (α : Type) where
  workload : α
  destination : Nat
deriving DecidableEq, Repr

structure PoolState (α β : Type) where
  input_queue : List (QueueTask α)
  inflight : List (Option (QueueTask α))
  deliveredLog : List (QueueTask α)
  dests : Nat → List β

/-- One atomic action of the pool: a worker with an empty slot atomically
dequeues the head of the shared input queue (`input_queue.get` in
`QueueWorkerABC.run`), or a worker holding a task computes `process` on its
workload and puts the single result on the task's destination queue. -/
inductive PoolStep (process : α → β) : PoolState α β → PoolState α β → Prop
  | dequeue (s : PoolState α β) (i : Nat) (t : QueueTask α) (rest : List (QueueTask α))
      (hi : s.inflight[i]? = some none) (hq : s.input_queue = t :: rest) :
      PoolStep process s ⟨rest, s.inflight.set i (some t), s.deliveredLog, s.dests⟩
  | deliver (s : PoolState α β) (i : Nat) (t : QueueTask α)
      (hi : s.inflight[i]? = some (some t)) :
      PoolStep process s ⟨s.input_queue, s.inflight.set i none, s.deliveredLog ++ [t],
        fun d => if d = t.destination then s.dests d ++ [process t.workload] else s.dests d⟩

/-- Reachability under pool steps. -/
def poolReaches (process : α → β) : PoolState α β → PoolState α β → Prop :=
  Relation.ReflTransGen (PoolStep process)

/-- The state of a freshly started pool: all submitted tasks pending on the
shared input queue, every worker idle, nothing delivered. -/
def initPool (tasks : List (QueueTask α)) (workers : Nat) : PoolState α β :=
  ⟨tasks, List.replicate workers none, [], fun _ => []⟩

/-- Conservation: counted with multiplicity, the submitted tasks are exactly
the pending ones, the in-flight ones and the delivered ones. -/
def conserved (tasks : List (QueueTask α)) (s : PoolState α β) : Prop :=
  (tasks : Multiset (QueueTask α)) =
    (s.input_queue : Multiset (QueueTask α)) + ↑s.inflight.reduceOption + ↑s.deliveredLog

/-- Every destination queue holds exactly one result per delivered task that
named it, in delivery order. -/
def destsConsistent (process : α → β) (s : PoolState α β) : Prop :=
  ∀ d, s.dests d =
    (s.deliveredLog.filter (fun t => t.destination == d)).map (fun t => process t.workload)

/-- The state after a single worker has drained the whole input queue. -/
def drainedState (process : α → β) (s : PoolState α β) : PoolState α β :=
  ⟨[], s.inflight, s.deliveredLog ++ s.input_queue,
    fun d => s.dests d ++
      ((s.input_queue.filter (fun t => t.destination == d)).map (fun t => process t.workload))⟩

/-! ### Worker run loop with shutdown (`QueueWorkerABC.run`, `on_shutdown`)

Each loop iteration either times out on the queue (`none`) or dequeues one
task, processes it and delivers the result; the shutdown flag is checked at
the end of every iteration.  `flagAt` is the index of the first iteration
whose end-of-loop check observes `should_shutdown = true`.  Process handles
are process ids; `_RemoteRendererWorker.on_shutdown` touches a process only
when the worker spawned one. -/

inductive ProcOp where
  | terminate (pid : Nat)
  | kill (pid : Nat)
  | wait (pid : Nat)
deriving DecidableEq, Repr

/-- `_RemoteRendererWorker.on_shutdown`: terminate, kill, then wait, and only
when this worker owns a spawned server process. -/
def on_shutdown (server_process : Option Nat) : List ProcOp :=
  match server_process with
  | some pid => [ProcOp.terminate pid, ProcOp.kill pid, ProcOp.wait pid]
  | none => []

/-- `QueueWorkerABC.run` from iteration `k` on: returns the `(iteration, task)`
pairs processed and the process operations performed on exit.  The loop exits
at the first iteration `k` with `flagAt ≤ k`, after finishing that
iteration's task (if any) and running `on_shutdown`. -/
def runFrom (flagAt : Nat) (server_process : Option Nat) :
    Nat → List (Option α) → List (Nat × α) × List ProcOp
  | _, [] => ([], [])
  | k, inp :: rest =>
    let processed := match inp with
      | some t => [(k, t)]
      | none => []
    if flagAt ≤ k then (processed, on_shutdown server_process)
    else
      let r := runFrom flagAt server_process (k + 1) rest
      (processed ++ r.1, r.2)

/-- The whole run loop, starting at iteration `0`. -/
def workerRunLoop (flagAt : Nat) (server_process : Option Nat) (inputs : List (Option α)) :
    List (Nat × α) × List ProcOp :=
  runFrom flagAt server_process 0 inputs

/-! ## Worker-side configuration stamping (`_RemoteRendererWorker.process`)

A `_WorkloadWithConfig` carries the dispatcher's stamp, the stamped
configuration, and the actual workload.  The worker compares the stamp with
its own `renderer_config_stamp`; on a difference it records the stamp and
issues one `Update` RPC before the `RenderBatch` RPC for that workload. -/

structure WorkloadWithConfig (γ α : Type) where
  renderer_config_stamp : Nat
  renderer_config : γ
  workload : α
deriving DecidableEq, Repr

/-- The RPCs a worker issues, in order: `update` is the configuration-update
RPC carrying the stamped config, `render` the render-batch RPC for the
workload at the given queue position. -/
inductive WorkerEvent (γ : Type) where
  | update (stamp : Nat) (config : γ)
  | render (index : Nat)
deriving DecidableEq, Repr

/-- One `process` call: RPCs issued and the worker's `renderer_config_stamp`
afterwards. -/
def processEvents (applied : Nat) (index : Nat) (w : WorkloadWithConfig γ α) :
    List (WorkerEvent γ) × Nat :=
  if w.renderer_config_stamp ≠ applied then
    ([WorkerEvent.update w.renderer_config_stamp w.renderer_config, WorkerEvent.render index],
      w.renderer_config_stamp)
  else
    ([WorkerEvent.render index], applied)

/-- A worker processing a sequence of stamped workloads, threading its
`renderer_config_stamp` (initially `0` in `_RemoteRendererWorker.__init__`). -/
def workerRun (applied : Nat) (index : Nat) :
    List (WorkloadWithConfig γ α) → List (WorkerEvent γ) × Nat
  | [] => ([], applied)
  | w :: ws =>
    let p := processEvents applied index w
    let r := workerRun p.2 (index + 1) ws
    (p.1 ++ r.1, r.2)

/-- The stamps of the update RPCs issued along a run. -/
def updateEventStamps : List (WorkerEvent γ) → List Nat
  | [] => []
  | WorkerEvent.update v _ :: es => v :: updateEventStamps es
  | WorkerEvent.render _ :: es => updateEventStamps es

/-- The stamps of the update RPCs, computed directly from the stamp sequence
of the dequeued workloads. -/
def updateStamps (applied : Nat) : List Nat → List Nat
  | [] => []
  | v :: vs => if v ≠ applied then v :: updateStamps v vs else updateStamps v vs

/-! ## Worker startup retries (`_RemoteRendererWorker.on_run`)

`on_run` tries `_create_render_service_stub` up to 10 times; after every
failed attempt `i` it sleeps `1 + i` seconds, and when all attempts fail it
raises `RendererError`.  `outcome i` tells whether attempt `i` succeeds; the
result carries the successful attempt index (the connected client) or the
error, the number of attempts made, and the list of sleep durations. -/

inductive RendererError where
  | couldNotCreate
deriving DecidableEq, Repr

structure ConnectTrace where
  result : Except RendererError Nat
  attempts : Nat
  sleeps : List Nat
deriving Repr

/-- The retry loop of `on_run`, from attempt `i` with `fuel` attempts left. -/
def connectLoop (outcome : Nat → Bool) : Nat → Nat → ConnectTrace
  | _, 0 => ⟨Except.error RendererError.couldNotCreate, 0, []⟩
  | i, fuel + 1 =>
    if outcome i then ⟨Except.ok i, 1, []⟩
    else
      let r := connectLoop outcome (i + 1) fuel
      ⟨r.result, r.attempts + 1, (1 + i) :: r.sleeps⟩

/-- The connection phase of `_RemoteRendererWorker.on_run`: 10 attempts. -/
def on_run_connect (outcome : Nat → Bool) : ConnectTrace :=
  connectLoop outcome 0 10

/-! ## Response decoding (`_add_auxiliary_stream`, `_convert_render_batch_response`)

The Python `dict` result is an insertion-ordered association list; `ι` is the
type of encoded image payloads, `κ` of decoded images, `β` of raw auxiliary
scalars and `dtype : β → α` the elementwise `np.array(..., dtype=...)`
conversion.  Empty payload bytes are `none` (Python falsy). -/

inductive DsVal (κ α : Type) where
  | img (frames : List κ)
  | aux (rows : List (List α))
deriving DecidableEq, Repr

/-- Python `d[k] = v`: replace in place when the key exists, else append
(keys are unique in a Python dict, so replacing the first occurrence is
replacing the occurrence). -/
def dictSet : List (String × v) → String → v → List (String × v)
  | [], k, x => [(k, x)]
  | p :: ds, k, x => if p.1 == k then (k, x) :: ds else p :: dictSet ds k x

/-- Python `d.get(k)`. -/
def dictGet : List (String × v) → String → Option v
  | [], _ => none
  | p :: ds, k => if p.1 == k then some p.2 else dictGet ds k

/-- `np.reshape((rows, cols))` on a flat list whose length is `rows * cols`. -/
def reshapeRows (rows cols : Nat) (l : List α) : List (List α) :=
  (List.range rows).map (fun r => ((l.drop (r * cols)).take cols))

structure AuxStream (β : Type) where
  name : String
  data : List β
deriving DecidableEq, Repr

/-- `_add_auxiliary_stream`: reshape to `(batch_size, len / batch_size)` and
store under the stream name when the length divides evenly, otherwise log
and drop the stream, leaving the dataset untouched. -/
def _add_auxiliary_stream (batch_dataset : List (String × DsVal κ α)) (batch_size : Nat)
    (stream : AuxStream β) (dtype : β → α) : List (String × DsVal κ α) :=
  let data := stream.data.map dtype
  if data.length % batch_size = 0 then
    dictSet batch_dataset stream.name
      (DsVal.aux (reshapeRows batch_size (data.length / batch_size) data))
  else
    batch_dataset

structure ResponseEntry (ι : Type) where
  image_data : Option ι
  depth_data : Option ι
  normals_data : Option ι
  segmentation_data : Option ι
deriving DecidableEq, Repr

structure ResponseStream (ι : Type) where
  name : String
  entries : List (ResponseEntry ι)
deriving DecidableEq, Repr

structure RenderBatchResponse (ι β : Type) where
  streams : List (ResponseStream ι)
  auxiliary_float_streams : List (AuxStream β)
  auxiliary_int_streams : List (AuxStream β)
  auxiliary_bool_streams : List (AuxStream β)
deriving DecidableEq, Repr

/-- The per-entry image collection loop: keep, in entry order, the decoded
payloads of the entries whose payload is present. -/
def streamImages (read : ι → κ) (get : ResponseEntry ι → Option ι)
    (entries : List (ResponseEntry ι)) : List κ :=
  entries.filterMap (fun e => (get e).map read)

/-- The per-stream image part of `_convert_render_batch_response`: the rgb
frames always, the depth/normals/segmentation frames only when non-empty. -/
def convertStream (rr rd rn rs : ι → κ) (ds : List (String × DsVal κ α))
    (s : ResponseStream ι) : List (String × DsVal κ α) :=
  let ds1 := dictSet ds s.name (DsVal.img (streamImages rr (fun e => e.image_data) s.entries))
  let depth := streamImages rd (fun e => e.depth_data) s.entries
  let ds2 := if !depth.isEmpty then dictSet ds1 (s.name ++ "_depth") (DsVal.img depth) else ds1
  let normals := streamImages rn (fun e => e.normals_data) s.entries
  let ds3 :=
    if !normals.isEmpty then dictSet ds2 (s.name ++ "_normals") (DsVal.img normals) else ds2
  let seg := streamImages rs (fun e => e.segmentation_data) s.entries
  if !seg.isEmpty then dictSet ds3 (s.name ++ "_segmentation") (DsVal.img seg) else ds3

/-- All auxiliary streams of a response, paired with their dtype conversion,
in the order `_convert_render_batch_response` visits them. -/
def allAuxStreams {ι β α : Type} (response : RenderBatchResponse ι β) (dtF dtI dtB : β → α) :
    List (AuxStream β × (β → α)) :=
  response.auxiliary_float_streams.map (fun s => (s, dtF))
    ++ response.auxiliary_int_streams.map (fun s => (s, dtI))
    ++ response.auxiliary_bool_streams.map (fun s => (s, dtB))

/-- `_convert_render_batch_response`: the image part, then every auxiliary
float, int and bool stream folded in. -/
def _convert_render_batch_response (rr rd rn rs : ι → κ) (dtF dtI dtB : β → α)
    (response : RenderBatchResponse ι β) (batch_size : Nat) : List (String × DsVal κ α) :=
  let ds0 := response.streams.foldl (convertStream rr rd rn rs) []
  let ds1 := response.auxiliary_float_streams.foldl
    (fun d s => _add_auxiliary_stream d batch_size s dtF) ds0
  let ds2 := response.auxiliary_int_streams.foldl
    (fun d s => _add_auxiliary_stream d batch_size s dtI) ds1
  response.auxiliary_bool_streams.foldl
    (fun d s => _add_auxiliary_stream d batch_size s dtB) ds2

/-! ## Request building (`_build_render_batch_request`)

A workload is a Python dict; the keys the builder touches are `seed`,
`seeds` and `qpos` (state vectors of opaque type `σ`).  When neither `seed`
nor `seeds` is present the Python local `use_entry_seeds` is unbound and the
call raises; when `seeds` is shorter than `qpos` the index access raises. -/

structure Workload (σ : Type) where
  seed : Option Int
  seeds : Option (List Int)
  qpos : List σ
deriving DecidableEq, Repr

structure RemoteRendererConfig where
  camera_names : List String
  render_alpha : Bool
  render_depth : Bool
  render_normals : Bool
  render_segmentation : Bool
  image_width : Nat
  image_height : Nat
deriving DecidableEq, Repr

structure RequestEntry (σ : Type) where
  qpos : σ
  seed : Int
deriving DecidableEq, Repr

structure RenderBatchRequest (σ : Type) where
  width : Nat
  height : Nat
  batch_seed : Int
  use_entry_seeds : Bool
  render_alpha : Bool
  render_depth : Bool
  render_normals : Bool
  render_segmentation : Bool
  entries : List (RequestEntry σ)
  camera_names : List String
deriving DecidableEq, Repr

inductive BuildError where
  | unboundUseEntrySeeds
  | seedIndexOutOfRange
deriving DecidableEq, Repr

/-- The entry loop: one request entry per `qpos` vector in order; under
per-entry seeds, entry `i` carries `seeds[i]` (raising when out of range),
otherwise the proto default seed `0`. -/
def buildEntriesFrom (use_entry_seeds : Bool) (seeds : List Int) :
    Nat → List σ → Except BuildError (List (RequestEntry σ))
  | _, [] => Except.ok []
  | i, q :: qs =>
    if use_entry_seeds then
      match seeds[i]? with
      | none => Except.error BuildError.seedIndexOutOfRange
      | some s => do
        let rest ← buildEntriesFrom use_entry_seeds seeds (i + 1) qs
        Except.ok (⟨q, s⟩ :: rest)
    else do
      let rest ← buildEntriesFrom use_entry_seeds seeds (i + 1) qs
      Except.ok (⟨q, 0⟩ :: rest)

/-- The two `if` statements of `_build_render_batch_request` that assign the
Python local `use_entry_seeds`: a present `seeds` wins (it is assigned
second), a lone `seed` gives `false`, and with neither key the local is
unbound and the call raises. -/
def useEntrySeedsOf (w : Workload σ) : Except BuildError Bool :=
  match w.seeds, w.seed with
  | some _, _ => Except.ok true
  | none, some _ => Except.ok false
  | none, none => Except.error BuildError.unboundUseEntrySeeds

/-- `_build_render_batch_request`: returns the request and the batch size
`len(workload[qpos])`.  A lone `seed` is truncated modulo `2^31` into
`batch_seed` with `use_entry_seeds = false`; a `seeds` list sets
`use_entry_seeds = true` and per-entry seeds. -/
def _build_render_batch_request (w : Workload σ) (config : RemoteRendererConfig) :
    Except BuildError (RenderBatchRequest σ × Nat) :=
  let batch_seed : Int := match w.seed with
    | some s => s % ((1 : Int) <<< 31)
    | none => 0
  match useEntrySeedsOf w with
  | Except.error e => Except.error e
  | Except.ok use_entry_seeds =>
    match buildEntriesFrom use_entry_seeds (w.seeds.getD []) 0 w.qpos with
    | Except.error e => Except.error e
    | Except.ok entries =>
      Except.ok
        ({ width := config.image_width
           height := config.image_height
           batch_seed := batch_seed
           use_entry_seeds := use_entry_seeds
           render_alpha := config.render_alpha
           render_depth := config.render_depth
           render_normals := config.render_normals
           render_segmentation := config.render_segmentation
           entries := entries
           camera_names := config.camera_names }, w.qpos.length)

/-! ## Worker construction (`RemoteRenderer.create_workers`)

`create_workers` asserts the caller-provided `(device, port)` list is
non-empty, then, when `ORRB_MINIMAL` is set, truncates it with a Python
slice `server_configs[:int(ORRB_MINIMAL)]` before building one worker per
retained pair.  `none` models a failed assertion. -/

structure WorkerSlot where
  device : Int
  port : Int
deriving DecidableEq, Repr

/-- Python `l[:m]`: for non-negative `m` the first `m` elements, for negative
`m` all but the last `-m` (clamped at the empty list). -/
def pySliceTo (m : Int) (l : List α) : List α :=
  if 0 ≤ m then l.take m.toNat else l.take (l.length - (-m).toNat)

/-- The `(device, port)` pairs retained after the `ORRB_MINIMAL` truncation. -/
def retainedConfigs (orrb_minimal : Option Int) (server_configs : List (Int × Int)) :
    List (Int × Int) :=
  match orrb_minimal with
  | some m => pySliceTo m server_configs
  | none => server_configs

/-- `RemoteRenderer.create_workers`. -/
def create_workers (orrb_minimal : Option Int) (server_configs : List (Int × Int)) :
    Option (List WorkerSlot) :=
  if server_configs.length > 0 then
    some ((retainedConfigs orrb_minimal server_configs).map (fun p => ⟨p.1, p.2⟩))
  else
    none

/-! ## Dispatcher state (`RemoteRenderer`)

The dispatcher holds the `(renderer_config_stamp, renderer_config)` pair, its
private `sync_queue`, the shared input queue of stamped workloads, and the
caller-owned external destination queues.  `exec` abstracts the worker pool:
it maps a stamped workload to the result delivered to its destination. -/

inductive Destination where
  | sync
  | ext (id : Nat)
deriving DecidableEq, Repr

structure RemoteRendererState (γ α ρ : Type) where
  renderer_config_stamp : Nat
  renderer_config : γ
  input_queue : List (WorkloadWithConfig γ α × Destination)
  sync_queue : List ρ
  ext_queues : Nat → List ρ

/-- `RemoteRenderer.render_batch_async`: wrap the workload with the current
`(stamp, config)` pair and put it on the shared input queue. -/
def render_batch_async (st : RemoteRendererState γ α ρ) (w : α) (d : Destination) :
    RemoteRendererState γ α ρ :=
  { st with input_queue :=
      st.input_queue ++ [(⟨st.renderer_config_stamp, st.renderer_config, w⟩, d)] }

/-- `RemoteRenderer.update`: increment the stamp and replace the held config;
touches nothing else. -/
def update (st : RemoteRendererState γ α ρ) (cfg : γ) : RemoteRendererState γ α ρ :=
  { st with renderer_config_stamp := st.renderer_config_stamp + 1, renderer_config := cfg }

/-- Put a result on a destination queue. -/
def deliverResult (st : RemoteRendererState γ α ρ) (d : Destination) (r : ρ) :
    RemoteRendererState γ α ρ :=
  match d with
  | Destination.sync => { st with sync_queue := st.sync_queue ++ [r] }
  | Destination.ext i =>
    { st with ext_queues := fun j => if j = i then st.ext_queues j ++ [r] else st.ext_queues j }

/-- A worker processes the head task of the input queue and delivers its
result; `none` when the queue is empty. -/
def processHead (exec : WorkloadWithConfig γ α → ρ) (st : RemoteRendererState γ α ρ) :
    Option (RemoteRendererState γ α ρ) :=
  match st.input_queue with
  | [] => none
  | (t, d) :: rest => some (deliverResult { st with input_queue := rest } d (exec t))

/-- The blocking `sync_queue.get()`: pop the head once the private queue is
non-empty, letting workers process pending tasks in the meantime; `none`
models blocking forever (fuel exhausted or nothing left to process). -/
def syncGet (exec : WorkloadWithConfig γ α → ρ) :
    Nat → RemoteRendererState γ α ρ → Option (ρ × RemoteRendererState γ α ρ)
  | 0, _ => none
  | fuel + 1, st =>
    match st.sync_queue with
    | r :: rest => some (r, { st with sync_queue := rest })
    | [] =>
      match processHead exec st with
      | some st2 => syncGet exec fuel st2
      | none => none

/-- `RemoteRenderer.render_batch`: submit through `render_batch_async` with
the private `sync_queue` as destination, block on one `get`, return the
received result unchanged (`task_done` has no modelled effect). -/
def render_batch (exec : WorkloadWithConfig γ α → ρ) (st : RemoteRendererState γ α ρ)
    (w : α) : Option (ρ × RemoteRendererState γ α ρ) :=
  let st1 := render_batch_async st w Destination.sync
  syncGet exec (st1.input_queue.length + 1) st1

/-- Modelled from the spec: `submitSync(payload)` is `submitAsync` to the
dispatcher's private result sink followed by a single blocking receive on
that sink. -/
def submitSync_spec (exec : WorkloadWithConfig γ α → ρ) (st : RemoteRendererState γ α ρ)
    (w : α) : Option (ρ × RemoteRendererState γ α ρ) :=
  let submitted := render_batch_async st w Destination.sync
  syncGet exec (submitted.input_queue.length + 1) submitted

/-! ## Non-atomicity of the published `(version, value)` pair
(`RemoteRenderer.update` versus `RemoteRenderer.render_batch_async`)

`update` runs `renderer_config_stamp += 1` and `renderer_config = ...` as
two separate writes, and `render_batch_async` reads the two fields with two
separate loads.  Configuration values are tagged by the version under which
they were published, so a read is consistent exactly when the version read
equals the tag of the value read.  A schedule interleaves the two writer
operations (`true` moves) with the two reader operations (`false` moves). -/

structure PairState where
  stamp : Nat
  value : Nat
deriving DecidableEq, Repr

inductive WriterOp where
  | writeStamp
  | writeValue
deriving DecidableEq, Repr

inductive ReaderOp where
  | readStamp
  | readValue
deriving DecidableEq, Repr

structure InterleaveState where
  pair : PairState
  writerPending : List WriterOp
  readerPending : List ReaderOp
  stampRead : Option Nat
  valueRead : Option Nat
deriving DecidableEq, Repr

/-- One writer move of `update`: first `renderer_config_stamp += 1`, then
`renderer_config = deepcopy(new value)` (tagged `newVal`). -/
def wStep (newVal : Nat) (s : InterleaveState) : InterleaveState :=
  match s.writerPending with
  | [] => s
  | WriterOp.writeStamp :: r =>
    { s with pair := { s.pair with stamp := s.pair.stamp + 1 }, writerPending := r }
  | WriterOp.writeValue :: r =>
    { s with pair := { s.pair with value := newVal }, writerPending := r }

/-- One reader move of `render_batch_async`: load the stamp, then load the
config value. -/
def rStep (s : InterleaveState) : InterleaveState :=
  match s.readerPending with
  | [] => s
  | ReaderOp.readStamp :: r => { s with stampRead := some s.pair.stamp, readerPending := r }
  | ReaderOp.readValue :: r => { s with valueRead := some s.pair.value, readerPending := r }

/-- Run a schedule: `true` moves the writer, `false` moves the reader. -/
def execSched (newVal : Nat) (sched : List Bool) (s : InterleaveState) : InterleaveState :=
  sched.foldl (fun st mv => if mv then wStep newVal st else rStep st) s

/-- Before the update: the pair holds version `v` and the value published
under `v`; both programs are fully pending; nothing read yet. -/
def initInterleave (v : Nat) : InterleaveState :=
  ⟨⟨v, v⟩, [WriterOp.writeStamp, WriterOp.writeValue],
    [ReaderOp.readStamp, ReaderOp.readValue], none, none⟩

/-- The reader's two loads are adjacent in the schedule (no writer move
between them). -/
def readsAdjacent : List Bool → Bool
  | [] => false
  | true :: r => readsAdjacent r
  | false :: r => r.head? == some false

/-- The writer's two stores are adjacent in the schedule (no reader move
between them). -/
def writesAdjacent : List Bool → Bool
  | [] => false
  | false :: r => writesAdjacent r
  | true :: r => r.head? == some true

/-!
# Theorems

Supporting lemmas first, then one theorem per claim (with witnesses and
counterexamples where required).
-/

/-! ## Supporting lemmas for the startup retry loop (C3) -/

theorem range_succ_map (f : Nat → Nat) (n : Nat) :
    (List.range (n + 1)).map f = f 0 :: (List.range n).map (fun j => f (j + 1)) := by
  rw [List.range_succ_eq_map, List.map_cons, List.map_map]
  rfl

theorem sleeps_shift (i k : Nat) :
    (1 + i) :: (List.range k).map (fun j => 1 + (i + 1 + j)) =
      (List.range (k + 1)).map (fun j => 1 + (i + j)) := by
  rw [range_succ_map (fun j => 1 + (i + j)) k]
  refine congrArg₂ List.cons ?_ ?_
  · show 1 + i = 1 + (i + 0)
    omega
  · refine List.map_congr_left fun j _ => ?_
    show 1 + (i + 1 + j) = 1 + (i + (j + 1))
    omega

theorem connectLoop_success (outcome : Nat → Bool) :
    ∀ (fuel k i : Nat), k < fuel → outcome (i + k) = true →
      (∀ j, j < k → outcome (i + j) = false) →
      connectLoop outcome i fuel =
        ⟨Except.ok (i + k), k + 1, (List.range k).map (fun j => 1 + (i + j))⟩ := by
  intro fuel
  induction fuel with
  | zero => intro k i hk; omega
  | succ f ih =>
    intro k i hk hsucc hfail
    cases k with
    | zero =>
      simp only [Nat.add_zero] at hsucc
      simp [connectLoop, hsucc]
    | succ k =>
      have h0 : outcome i = false := by
        have := hfail 0 (Nat.succ_pos k)
        simpa using this
      have hr := ih k (i + 1) (by omega)
        (by have : i + 1 + k = i + (k + 1) := by omega
            rw [this]; exact hsucc)
        (fun j hj => by
          have : i + 1 + j = i + (j + 1) := by omega
          rw [this]; exact hfail (j + 1) (by omega))
      have h1 : i + 1 + k = i + (k + 1) := by omega
      simp only [connectLoop, h0, Bool.false_eq_true, if_false, hr, h1, sleeps_shift i k]

theorem connectLoop_fail (outcome : Nat → Bool) :
    ∀ (fuel i : Nat), (∀ j, j < fuel → outcome (i + j) = false) →
      connectLoop outcome i fuel =
        ⟨Except.error RendererError.couldNotCreate, fuel,
          (List.range fuel).map (fun j => 1 + (i + j))⟩ := by
  intro fuel
  induction fuel with
  | zero => intro i _; rfl
  | succ f ih =>
    intro i hfail
    have h0 : outcome i = false := by
      have := hfail 0 (Nat.succ_pos f)
      simpa using this
    have hr := ih (i + 1) (fun j hj => by
      have : i + 1 + j = i + (j + 1) := by omega
      rw [this]; exact hfail (j + 1) (by omega))
    simp only [connectLoop, h0, Bool.false_eq_true, if_false, hr, sleeps_shift i f]

/-- C3: during worker startup, connecting to the render server is attempted
up to exactly 10 times, sleeping `1 + attempt` seconds after each failed
attempt; the first successful attempt `k < 10` ends the loop with a
connected client after `k + 1` attempts and sleeps `1, 2, ..., k`; when all
10 attempts fail the worker raises a fatal `RendererError` after exactly 10
attempts and sleeps `1, 2, ..., 10`. -/
theorem c3_connect_retry (outcome : Nat → Bool) :
    (∀ k, k < 10 → outcome k = true → (∀ j, j < k → outcome j = false) →
      on_run_connect outcome =
        ⟨Except.ok k, k + 1, (List.range k).map (fun j => 1 + j)⟩) ∧
    ((∀ j, j < 10 → outcome j = false) →
      on_run_connect outcome =
        ⟨Except.error RendererError.couldNotCreate, 10,
          (List.range 10).map (fun j => 1 + j)⟩) := by
  constructor
  · intro k hk hsucc hfail
    have := connectLoop_success outcome 10 k 0 hk (by simpa using hsucc)
      (fun j hj => by simpa using hfail j hj)
    simpa [on_run_connect] using this
  · intro hfail
    have := connectLoop_fail outcome 10 0 (fun j hj => by simpa using hfail j hj)
    simpa [on_run_connect] using this

/-- Witness for C3: with success on attempt 3, the loop connects on attempt 3
after sleeping 1, 2, 3; with no success at all it fails after 10 attempts. -/
theorem c3_connect_retry_witness :
    on_run_connect (fun n => n == 3) =
      ⟨Except.ok 3, 3 + 1, (List.range 3).map (fun j => 1 + j)⟩ ∧
    on_run_connect (fun _ => false) =
      ⟨Except.error RendererError.couldNotCreate, 10,
        (List.range 10).map (fun j => 1 + j)⟩ :=
  ⟨(c3_connect_retry (fun n => n == 3)).1 3 (by decide) (by decide) (by decide),
   (c3_connect_retry (fun _ => false)).2 (by decide)⟩

/-! ## Worker construction (C7) -/

/-- C7 counterexample: with the environment override `ORRB_MINIMAL=0` and a
non-empty caller list, `create_workers` passes its assertion (it checks the
original list) yet truncates to the empty list, producing zero workers. -/
theorem c7_minimal_truncation_empty :
    (create_workers (some 0) [(0, 6000)]).map List.length = some 0 := by
  decide

/-- C7 (amended): construction yields one worker per retained `(device,
port)` pair; when `ORRB_MINIMAL` is unset or set to a value `≥ 1`, the
resulting worker count is at least 1.  (As stated the claim fails: the
override value `0` — or a negative value cancelling the whole list —
truncates a non-empty caller list to an empty pool.) -/
theorem c7_create_workers_amended (cfgs : List (Int × Int)) (m : Option Int)
    (hne : 0 < cfgs.length) (hm : ∀ k, m = some k → 1 ≤ k) :
    create_workers m cfgs =
      some ((retainedConfigs m cfgs).map (fun p => ⟨p.1, p.2⟩)) ∧
    ((retainedConfigs m cfgs).map
        (fun p : Int × Int => (⟨p.1, p.2⟩ : WorkerSlot))).length =
      (retainedConfigs m cfgs).length ∧
    1 ≤ (retainedConfigs m cfgs).length := by
  refine ⟨?_, List.length_map _ _, ?_⟩
  · unfold create_workers
    rw [if_pos hne]
  · match m with
    | none => simpa [retainedConfigs] using hne
    | some k =>
      have hk : 1 ≤ k := hm k rfl
      have h0 : (0 : Int) ≤ k := by omega
      simp only [retainedConfigs, pySliceTo, if_pos h0, List.length_take]
      omega

/-- Witness for C7 (amended): two pairs truncated by `ORRB_MINIMAL=1` leave
exactly one worker. -/
theorem c7_create_workers_amended_witness :
    create_workers (some 1) [(0, 6000), (1, 6001)] =
      some ((retainedConfigs (some 1) [(0, 6000), (1, 6001)]).map (fun p => ⟨p.1, p.2⟩)) ∧
    ((retainedConfigs (some 1) [(0, 6000), (1, 6001)]).map
        (fun p : Int × Int => (⟨p.1, p.2⟩ : WorkerSlot))).length =
      (retainedConfigs (some 1) [(0, 6000), (1, 6001)]).length ∧
    1 ≤ (retainedConfigs (some 1) [(0, 6000), (1, 6001)]).length :=
  c7_create_workers_amended [(0, 6000), (1, 6001)] (some 1) (by decide)
    (fun k h => by injection h with h2; omega)

/-! ## Dispatcher configuration updates (C9) -/

theorem foldl_update_stamp {γ α ρ : Type} :
    ∀ (cfgs : List γ) (st : RemoteRendererState γ α ρ),
      (cfgs.foldl update st).renderer_config_stamp =
        st.renderer_config_stamp + cfgs.length := by
  intro cfgs
  induction cfgs with
  | nil => intro st; simp
  | cons c cs ih =>
    intro st
    rw [List.foldl_cons, ih]
    simp only [update, List.length_cons]
    omega

/-- C9: every `update` call increments the held version counter by one and
replaces the held configuration value, without touching the queues workers
and submissions use (it does not wait on workers); across any sequence of
updates the version after `k` updates is the initial version plus `k`, so
each published value gets a version strictly greater than every previously
published one. -/
theorem c9_update_monotone_versions {γ α ρ : Type} (st : RemoteRendererState γ α ρ)
    (cfg : γ) (cfgs : List γ) :
    (update st cfg).renderer_config_stamp = st.renderer_config_stamp + 1 ∧
    (update st cfg).renderer_config = cfg ∧
    (update st cfg).input_queue = st.input_queue ∧
    (update st cfg).sync_queue = st.sync_queue ∧
    (update st cfg).ext_queues = st.ext_queues ∧
    (∀ k, k ≤ cfgs.length →
      ((cfgs.take k).foldl update st).renderer_config_stamp =
        st.renderer_config_stamp + k) ∧
    (∀ j k, j < k → k ≤ cfgs.length →
      ((cfgs.take j).foldl update st).renderer_config_stamp <
        ((cfgs.take k).foldl update st).renderer_config_stamp) := by
  have htake : ∀ k, k ≤ cfgs.length →
      ((cfgs.take k).foldl update st).renderer_config_stamp =
        st.renderer_config_stamp + k := by
    intro k hk
    rw [foldl_update_stamp (cfgs.take k) st, List.length_take]
    omega
  refine ⟨rfl, rfl, rfl, rfl, rfl, htake, ?_⟩
  intro j k hjk hk
  rw [htake j (by omega), htake k hk]
  omega

/-! ## Synchronous render call (C10) -/

theorem syncGet_drain {γ α ρ : Type} (exec : WorkloadWithConfig γ α → ρ)
    (tw : WorkloadWithConfig γ α) :
    ∀ (pending : List (WorkloadWithConfig γ α × Destination))
      (st : RemoteRendererState γ α ρ) (fuel : Nat),
      st.sync_queue = [] →
      st.input_queue = pending ++ [(tw, Destination.sync)] →
      (∀ p ∈ pending, p.2 ≠ Destination.sync) →
      pending.length + 2 ≤ fuel →
      ∃ stF, syncGet exec fuel st = some (exec tw, stF) ∧
        stF.sync_queue = [] ∧ stF.input_queue = [] := by
  intro pending
  induction pending with
  | nil =>
    intro st fuel hsync hinput _ hfuel
    match fuel, hfuel with
    | f + 2, _ =>
      refine ⟨{ st with input_queue := [], sync_queue := [] }, ?_, rfl, rfl⟩
      simp only [syncGet, hsync, processHead, hinput, List.nil_append, deliverResult,
        List.nil_append]
  | cons p ps ih =>
    intro st fuel hsync hinput hdest hfuel
    match fuel, hfuel with
    | f + 1, hf =>
      obtain ⟨t, d⟩ := p
      have hd : d ≠ Destination.sync := hdest (t, d) (List.mem_cons_self _ _)
      match d, hd with
      | Destination.ext i, _ =>
        have step : syncGet exec (f + 1) st =
            syncGet exec f (deliverResult { st with input_queue := ps ++ [(tw, Destination.sync)] }
              (Destination.ext i) (exec t)) := by
          simp only [syncGet, hsync, processHead, hinput, List.cons_append]
        rw [step]
        exact ih _ f (by simp [deliverResult, hsync]) (by simp [deliverResult])
          (fun q hq => hdest q (List.mem_cons_of_mem _ hq))
          (by simp at hf ⊢; omega)

/-- C10: the synchronous `render_batch` submits the workload through
`render_batch_async` with the dispatcher's private `sync_queue` as
destination and blocks on a single receive from it, which is exactly the
spec's `submitAsync` + one blocking receive composition; on a dispatcher
whose private queue is empty and whose pending tasks all target external
destinations, the received (and returned, unchanged) result is precisely the
worker's output for the submitted stamped workload, and the private queue is
empty again afterwards. -/
theorem c10_render_batch_refines {γ α ρ : Type} (exec : WorkloadWithConfig γ α → ρ)
    (st : RemoteRendererState γ α ρ) (w : α)
    (hsync : st.sync_queue = [])
    (hpend : ∀ p ∈ st.input_queue, p.2 ≠ Destination.sync) :
    render_batch exec st w = submitSync_spec exec st w ∧
    ∃ stF, render_batch exec st w =
        some (exec ⟨st.renderer_config_stamp, st.renderer_config, w⟩, stF) ∧
      stF.sync_queue = [] ∧ stF.input_queue = [] := by
  refine ⟨rfl, ?_⟩
  exact syncGet_drain exec _ st.input_queue (render_batch_async st w Destination.sync) _
    hsync rfl hpend (by simp [render_batch_async])

/-- Witness for C10 at a concrete dispatcher state and workload. -/
theorem c10_render_batch_refines_witness :
    render_batch (fun t => t.workload)
        (⟨3, 42, [], [], fun _ => []⟩ : RemoteRendererState Nat Nat Nat) 5 =
      submitSync_spec (fun t => t.workload)
        (⟨3, 42, [], [], fun _ => []⟩ : RemoteRendererState Nat Nat Nat) 5 ∧
    ∃ stF, render_batch (fun t => t.workload)
          (⟨3, 42, [], [], fun _ => []⟩ : RemoteRendererState Nat Nat Nat) 5 =
        some (5, stF) ∧
      stF.sync_queue = [] ∧ stF.input_queue = [] :=
  c10_render_batch_refines (fun t => t.workload)
    (⟨3, 42, [], [], fun _ => []⟩ : RemoteRendererState Nat Nat Nat) 5 rfl
    (fun p hp => absurd hp (List.not_mem_nil p))

/-! ## Atomicity of the published pair (C5) -/

/-- C5 counterexample: with the two-field `update` (`renderer_config_stamp
+= 1` then `renderer_config = ...`) interleaved between the two loads of
`render_batch_async`, a reader observes version 1 paired with the
configuration value published under version 0 — the claim that no
interleaving lets a reader observe a version paired with the value of a
different version is false on the code. -/
theorem c5_publish_not_atomic_counterexample :
    (execSched 1 [true, false, false, true] (initInterleave 0)).stampRead = some 1 ∧
    (execSched 1 [true, false, false, true] (initInterleave 0)).valueRead = some 0 := by
  decide

/-- C5 (amended): the `(version, value)` pair is published by two separate
field writes and read by two separate loads, so a reader overlapping an
update can observe a version paired with the value of a different version;
whenever the two writes and the two reads do not interleave each other (each
pair runs atomically relative to the other), the reader observes the version
matched with the value published under it. -/
theorem c5_publish_serialized_consistent (v : Nat) (a b c d : Bool)
    (hcount : [a, b, c, d].count true = 2)
    (hr : readsAdjacent [a, b, c, d] = true)
    (hw : writesAdjacent [a, b, c, d] = true) :
    (execSched (v + 1) [a, b, c, d] (initInterleave v)).stampRead =
      (execSched (v + 1) [a, b, c, d] (initInterleave v)).valueRead := by
  cases a <;> cases b <;> cases c <;> cases d <;>
    simp_all [execSched, initInterleave, wStep, rStep, readsAdjacent, writesAdjacent,
      List.count_cons]

/-- Witness for the amended C5: the fully serialized schedule
(update first, then the read) observes a matched pair. -/
theorem c5_publish_serialized_consistent_witness :
    (execSched 5 [true, true, false, false] (initInterleave 4)).stampRead =
      (execSched 5 [true, true, false, false] (initInterleave 4)).valueRead :=
  c5_publish_serialized_consistent 4 true true false false (by decide) (by decide) (by decide)

/-! ## Worker shutdown (C6) -/

theorem runFrom_filter_le_one {α : Type} (flagAt : Nat) (sp : Option Nat) :
    ∀ (inputs : List (Option α)) (k : Nat),
      (((runFrom flagAt sp k inputs).1.filter (fun p => flagAt ≤ p.1)).length ≤ 1) := by
  intro inputs
  induction inputs with
  | nil => intro k; simp [runFrom]
  | cons inp rest ih =>
    intro k
    by_cases hk : flagAt ≤ k
    · match inp with
      | some t => simp [runFrom, hk]
      | none => simp [runFrom, hk]
    · have hklt : ¬ flagAt ≤ k := hk
      match inp with
      | some t =>
        simp only [runFrom, hklt, if_false, List.filter_append]
        have hnot : decide (flagAt ≤ k) = false := by simpa using hklt
        simp only [List.filter_cons, hnot, List.filter_nil, List.nil_append]
        exact ih (k + 1)
      | none =>
        simp only [runFrom, hklt, if_false, List.filter_append, List.filter_nil,
          List.nil_append]
        exact ih (k + 1)

theorem runFrom_exit_ops {α : Type} (flagAt : Nat) (sp : Option Nat) :
    ∀ (inputs : List (Option α)) (k : Nat),
      inputs ≠ [] → flagAt < k + inputs.length →
      (runFrom flagAt sp k inputs).2 = on_shutdown sp := by
  intro inputs
  induction inputs with
  | nil => intro k h; exact absurd rfl h
  | cons inp rest ih =>
    intro k _ hflag
    by_cases hk : flagAt ≤ k
    · match inp with
      | some t => simp [runFrom, hk]
      | none => simp [runFrom, hk]
    · have hne : rest ≠ [] := by
        intro hempty
        rw [hempty] at hflag
        simp at hflag
        omega
      have hlt : flagAt < (k + 1) + rest.length := by
        simp at hflag
        omega
      match inp with
      | some t => simpa [runFrom, hk] using ih (k + 1) hne hlt
      | none => simpa [runFrom, hk] using ih (k + 1) hne hlt

/-- C6: once the shutdown flag is set (first observed at the end-of-loop
check of iteration `flagAt`), the worker completes at most one further task
— the one of the iteration in flight when the flag was raised — and then
exits through `on_shutdown`: it issues the graceful terminate, then the
forceful kill, then waits for exit, and only when it owns a spawned server
process; with no owned process handle it performs no process operation at
all. -/
theorem c6_shutdown_terminates_owned_process {α : Type} (flagAt : Nat) (sp : Option Nat)
    (inputs : List (Option α)) (hrun : flagAt < inputs.length) :
    (((workerRunLoop flagAt sp inputs).1.filter (fun p => flagAt ≤ p.1)).length ≤ 1) ∧
    (workerRunLoop flagAt sp inputs).2 = on_shutdown sp ∧
    (∀ pid, sp = some pid →
      (workerRunLoop flagAt sp inputs).2 =
        [ProcOp.terminate pid, ProcOp.kill pid, ProcOp.wait pid]) ∧
    (sp = none → (workerRunLoop flagAt sp inputs).2 = []) := by
  have hne : inputs ≠ [] := by
    intro h
    rw [h] at hrun
    simp at hrun
  have hops := runFrom_exit_ops flagAt sp inputs 0 hne (by omega)
  refine ⟨runFrom_filter_le_one flagAt sp inputs 0, hops, ?_, ?_⟩
  · intro pid hpid
    rw [workerRunLoop, hops, hpid]
    rfl
  · intro hnone
    rw [workerRunLoop, hops, hnone]
    rfl

/-- Witness for C6: flag raised during iteration 1 of a three-iteration run
with an owned process 7. -/
theorem c6_shutdown_terminates_owned_process_witness :
    (((workerRunLoop 1 (some 7) [some 10, some 20, some 30]).1.filter
        (fun p => 1 ≤ p.1)).length ≤ 1) ∧
    (workerRunLoop 1 (some 7) [some 10, some 20, some 30]).2 =
      [ProcOp.terminate 7, ProcOp.kill 7, ProcOp.wait 7] ∧
    (workerRunLoop 1 (none : Option Nat) [some (10 : Nat), some 20, some 30]).2 = [] :=
  ⟨(c6_shutdown_terminates_owned_process 1 (some 7) [some 10, some 20, some 30]
      (by decide)).1,
   (c6_shutdown_terminates_owned_process 1 (some 7) [some 10, some 20, some 30]
      (by decide)).2.2.1 7 rfl,
   (c6_shutdown_terminates_owned_process 1 (none : Option Nat)
      [some (10 : Nat), some 20, some 30] (by decide)).2.2.2 rfl⟩

/-! ## Pool task conservation and delivery (C1) -/

theorem reduceOption_replicate_none {α : Type} :
    ∀ n : Nat, (List.replicate n (none : Option α)).reduceOption = [] := by
  intro n
  induction n with
  | zero => rfl
  | succ n ih => rw [List.replicate_succ, List.reduceOption_cons_of_none, ih]

theorem reduceOption_set_some {α : Type} :
    ∀ (l : List (Option α)) (i : Nat) (a : α), l[i]? = some none →
      (l.set i (some a)).reduceOption.Perm (a :: l.reduceOption) := by
  intro l
  induction l with
  | nil => intro i a h; simp at h
  | cons x tl ih =>
    intro i a h
    cases i with
    | zero =>
      have hx : x = none := by simpa using h
      subst hx
      simp only [List.set_cons_zero, List.reduceOption_cons_of_some,
        List.reduceOption_cons_of_none]
      exact List.Perm.refl _
    | succ i =>
      have h2 : tl[i]? = some none := by simpa using h
      cases x with
      | none =>
        simpa only [List.set_cons_succ, List.reduceOption_cons_of_none] using ih i a h2
      | some b =>
        simp only [List.set_cons_succ, List.reduceOption_cons_of_some]
        exact ((ih i a h2).cons b).trans (List.Perm.swap a b _)

theorem reduceOption_set_none {α : Type} :
    ∀ (l : List (Option α)) (i : Nat) (t : α), l[i]? = some (some t) →
      l.reduceOption.Perm (t :: (l.set i none).reduceOption) := by
  intro l
  induction l with
  | nil => intro i t h; simp at h
  | cons x tl ih =>
    intro i t h
    cases i with
    | zero =>
      have hx : x = some t := by simpa using h
      subst hx
      simp only [List.set_cons_zero, List.reduceOption_cons_of_some,
        List.reduceOption_cons_of_none]
      exact List.Perm.refl _
    | succ i =>
      have h2 : tl[i]? = some (some t) := by simpa using h
      cases x with
      | none =>
        simpa only [List.set_cons_succ, List.reduceOption_cons_of_none] using ih i t h2
      | some b =>
        simp only [List.set_cons_succ, List.reduceOption_cons_of_some]
        exact ((ih i t h2).cons b).trans (List.Perm.swap t b _)

theorem set_self_of_getElem? {α : Type} :
    ∀ (l : List α) (i : Nat) (a : α), l[i]? = some a → l.set i a = l := by
  intro l
  induction l with
  | nil => intro i a h; simp at h
  | cons x tl ih =>
    intro i a h
    cases i with
    | zero =>
      have hx : x = a := by simpa using h
      rw [List.set_cons_zero, hx]
    | succ i =>
      have h2 : tl[i]? = some a := by simpa using h
      rw [List.set_cons_succ, ih i a h2]

theorem pool_invariant {α β : Type} (process : α → β) (tasks : List (QueueTask α)) (W : Nat) :
    ∀ s, poolReaches process (initPool tasks W) s →
      conserved tasks s ∧ destsConsistent process s := by
  intro s h
  induction h with
  | refl =>
    constructor
    · show (tasks : Multiset (QueueTask α)) =
        ↑tasks + ↑(List.replicate W (none : Option (QueueTask α))).reduceOption +
          ↑([] : List (QueueTask α))
      rw [reduceOption_replicate_none]
      simp
    · intro d
      rfl
  | @tail b c hsteps hstep ih =>
    obtain ⟨ihc, ihd⟩ := ih
    cases hstep with
    | dequeue i t rest hi hq =>
      constructor
      · have hperm := reduceOption_set_some b.inflight i t hi
        have e2 : (((b.inflight.set i (some t)).reduceOption : List (QueueTask α)) :
            Multiset (QueueTask α)) = t ::ₘ ↑b.inflight.reduceOption := by
          rw [Multiset.cons_coe]
          exact Multiset.coe_eq_coe.mpr hperm
        show (tasks : Multiset (QueueTask α)) =
          ↑rest + ↑(b.inflight.set i (some t)).reduceOption + ↑b.deliveredLog
        rw [e2]
        unfold conserved at ihc
        rw [hq] at ihc
        rw [ihc, ← Multiset.cons_coe]
        simp only [Multiset.cons_add, Multiset.add_cons]
      · intro d
        exact ihd d
    | deliver i t hi =>
      constructor
      · have hperm := reduceOption_set_none b.inflight i t hi
        have e2 : ((b.inflight.reduceOption : List (QueueTask α)) : Multiset (QueueTask α)) =
            t ::ₘ ↑(b.inflight.set i none).reduceOption := by
          rw [Multiset.cons_coe]
          exact Multiset.coe_eq_coe.mpr hperm
        show (tasks : Multiset (QueueTask α)) =
          ↑b.input_queue + ↑(b.inflight.set i none).reduceOption +
            ↑(b.deliveredLog ++ [t])
        unfold conserved at ihc
        rw [ihc, e2, ← Multiset.coe_add]
        have hsing : (([t] : List (QueueTask α)) : Multiset (QueueTask α)) = {t} := rfl
        rw [hsing]
        simp only [Multiset.cons_add, Multiset.add_cons]
        rw [← Multiset.singleton_add]
        abel
      · intro d
        show (if d = t.destination then b.dests d ++ [process t.workload] else b.dests d) =
          ((b.deliveredLog ++ [t]).filter (fun u => u.destination == d)).map
            (fun u => process u.workload)
        rw [List.filter_append, List.map_append, ← ihd d]
        by_cases hd : d = t.destination
        · rw [if_pos hd]
          have hbeq : (t.destination == d) = true := by simp [hd]
          simp [List.filter_cons, hbeq]
        · rw [if_neg hd]
          have hbeq : (t.destination == d) = false :=
            beq_eq_false_iff_ne.mpr (fun hc => hd hc.symm)
          simp [List.filter_cons, hbeq]

theorem pool_drain {α β : Type} (process : α → β) :
    ∀ (ts : List (QueueTask α)) (s : PoolState α β),
      s.input_queue = ts → s.inflight[0]? = some none →
      poolReaches process s
        ⟨[], s.inflight, s.deliveredLog ++ ts,
          fun d => s.dests d ++
            ((ts.filter (fun u => u.destination == d)).map (fun u => process u.workload))⟩ := by
  intro ts
  induction ts with
  | nil =>
    intro s hq h0
    obtain ⟨q, fl, log, ds⟩ := s
    simp only at hq h0
    subst hq
    have hds : (fun d => ds d ++
        ((([] : List (QueueTask α)).filter (fun u => u.destination == d)).map
          (fun u => process u.workload))) = ds := by
      funext d
      simp
    rw [List.append_nil, hds]
    exact Relation.ReflTransGen.refl
  | cons t rest ih =>
    intro s hq h0
    have hlen : 0 < s.inflight.length := by
      by_contra hcon
      have : s.inflight = [] := List.eq_nil_of_length_eq_zero (by omega)
      rw [this] at h0
      simp at h0
    have hstep1 : PoolStep process s ⟨rest, s.inflight.set 0 (some t), s.deliveredLog, s.dests⟩ :=
      PoolStep.dequeue s 0 t rest h0 hq
    have hget1 : ((⟨rest, s.inflight.set 0 (some t), s.deliveredLog, s.dests⟩ :
        PoolState α β).inflight)[0]? = some (some t) := by
      show (s.inflight.set 0 (some t))[0]? = some (some t)
      rw [List.getElem?_set_self (by simpa using hlen)]
    have hstep2 : PoolStep process
        (⟨rest, s.inflight.set 0 (some t), s.deliveredLog, s.dests⟩ : PoolState α β)
        ⟨rest, (s.inflight.set 0 (some t)).set 0 none, s.deliveredLog ++ [t],
          fun d => if d = t.destination then s.dests d ++ [process t.workload]
            else s.dests d⟩ :=
      PoolStep.deliver _ 0 t hget1
    have hset : (s.inflight.set 0 (some t)).set 0 none = s.inflight := by
      rw [List.set_set]
      exact set_self_of_getElem? s.inflight 0 none h0
    have h02 : ((s.inflight.set 0 (some t)).set 0 none)[0]? = some none := by
      rw [hset]
      exact h0
    have ihapp := ih
      ⟨rest, (s.inflight.set 0 (some t)).set 0 none, s.deliveredLog ++ [t],
        fun d => if d = t.destination then s.dests d ++ [process t.workload] else s.dests d⟩
      rfl h02
    have hfinal : (⟨[], (s.inflight.set 0 (some t)).set 0 none,
        (s.deliveredLog ++ [t]) ++ rest,
        fun d => (if d = t.destination then s.dests d ++ [process t.workload] else s.dests d) ++
          ((rest.filter (fun u => u.destination == d)).map (fun u => process u.workload))⟩ :
          PoolState α β) =
        ⟨[], s.inflight, s.deliveredLog ++ t :: rest,
          fun d => s.dests d ++
            (((t :: rest).filter (fun u => u.destination == d)).map
              (fun u => process u.workload))⟩ := by
      rw [hset]
      simp only [PoolState.mk.injEq, true_and]
      refine ⟨by simp, ?_⟩
      funext d
      by_cases hd : d = t.destination
      · rw [if_pos hd]
        have hbeq : (t.destination == d) = true := by simp [hd]
        simp [List.filter_cons, hbeq]
      · rw [if_neg hd]
        have hbeq : (t.destination == d) = false :=
          beq_eq_false_iff_ne.mpr (fun hc => hd hc.symm)
        simp [List.filter_cons, hbeq]
    exact Relation.ReflTransGen.head hstep1
      (Relation.ReflTransGen.head hstep2 (hfinal ▸ ihapp))

/-- C1: tasks submitted to a started pool are conserved and each yields
exactly one result: in every reachable pool state the submitted tasks are
exactly the pending, in-flight and delivered ones counted with multiplicity
(no task is lost or duplicated, each dequeue moves the task to exactly one
worker), and every destination queue holds exactly one result per delivered
task that named it, in delivery order; moreover with at least one worker a
state is reachable in which the queue is drained, no task is in flight, and
every destination holds exactly the results of its tasks. -/
theorem c1_every_task_exactly_one_result {α β : Type} (process : α → β)
    (tasks : List (QueueTask α)) (W : Nat) :
    (∀ s, poolReaches process (initPool tasks W) s →
      conserved tasks s ∧ destsConsistent process s) ∧
    (0 < W →
      ∃ s, poolReaches process (initPool tasks W) s ∧
        s.input_queue = [] ∧ (∀ o ∈ s.inflight, o = none) ∧ s.deliveredLog = tasks ∧
        ∀ d, s.dests d =
          (tasks.filter (fun u => u.destination == d)).map (fun u => process u.workload)) := by
  refine ⟨pool_invariant process tasks W, ?_⟩
  intro hW
  have h0 : ((initPool tasks W : PoolState α β).inflight)[0]? = some none := by
    show (List.replicate W (none : Option (QueueTask α)))[0]? = some none
    rw [List.getElem?_replicate]
    simp [hW]
  have hreach := pool_drain process tasks (initPool tasks W) rfl h0
  refine ⟨_, hreach, rfl, ?_, by simp [initPool], fun d => by simp [initPool]⟩
  intro o ho
  exact List.eq_of_mem_replicate ho

/-- Witness for C1: two tasks, one worker — the initial state satisfies the
invariant and a fully drained state with one result per task is reachable. -/
theorem c1_every_task_exactly_one_result_witness :
    (conserved [(⟨1, 0⟩ : QueueTask Nat), ⟨2, 1⟩]
        (initPool [(⟨1, 0⟩ : QueueTask Nat), ⟨2, 1⟩] 1 : PoolState Nat Nat) ∧
      destsConsistent (fun n => n * 2)
        (initPool [(⟨1, 0⟩ : QueueTask Nat), ⟨2, 1⟩] 1 : PoolState Nat Nat)) ∧
    (∃ s : PoolState Nat Nat,
      poolReaches (fun n => n * 2) (initPool [(⟨1, 0⟩ : QueueTask Nat), ⟨2, 1⟩] 1) s ∧
        s.input_queue = [] ∧ (∀ o ∈ s.inflight, o = none) ∧
        s.deliveredLog = [(⟨1, 0⟩ : QueueTask Nat), ⟨2, 1⟩] ∧
        ∀ d, s.dests d =
          ([(⟨1, 0⟩ : QueueTask Nat), ⟨2, 1⟩].filter (fun u => u.destination == d)).map
            (fun u => (fun n => n * 2) u.workload)) :=
  ⟨(c1_every_task_exactly_one_result (fun n => n * 2)
      [(⟨1, 0⟩ : QueueTask Nat), ⟨2, 1⟩] 1).1 _ Relation.ReflTransGen.refl,
   (c1_every_task_exactly_one_result (fun n => n * 2)
      [(⟨1, 0⟩ : QueueTask Nat), ⟨2, 1⟩] 1).2 (by decide)⟩

/-! ## Worker-side configuration stamping (C2) -/

theorem processEvents_snd {γ α : Type} (a i : Nat) (w : WorkloadWithConfig γ α) :
    (processEvents a i w).2 = w.renderer_config_stamp := by
  by_cases h : w.renderer_config_stamp = a
  · simp [processEvents, h]
  · simp [processEvents, h]

theorem workerRun_append {γ α : Type} :
    ∀ (l1 l2 : List (WorkloadWithConfig γ α)) (a i : Nat),
      workerRun a i (l1 ++ l2) =
        ((workerRun a i l1).1 ++
            (workerRun (workerRun a i l1).2 (i + l1.length) l2).1,
          (workerRun (workerRun a i l1).2 (i + l1.length) l2).2) := by
  intro l1
  induction l1 with
  | nil => intro l2 a i; simp [workerRun]
  | cons w tl ih =>
    intro l2 a i
    simp only [List.cons_append, workerRun, List.length_cons, List.append_eq]
    rw [ih l2 (processEvents a i w).2 (i + 1)]
    have hidx : i + 1 + tl.length = i + (tl.length + 1) := by omega
    rw [hidx]
    simp [List.append_assoc]

theorem workerRun_snd {γ α : Type} :
    ∀ (ws : List (WorkloadWithConfig γ α)) (a i : Nat),
      (workerRun a i ws).2 =
        (ws.map (fun w => w.renderer_config_stamp)).getLastD a := by
  intro ws
  induction ws with
  | nil => intro a i; rfl
  | cons w tl ih =>
    intro a i
    simp only [workerRun, List.map_cons, List.getLastD_cons]
    rw [ih, processEvents_snd]

theorem updateEventStamps_append {γ : Type} :
    ∀ (l1 l2 : List (WorkerEvent γ)),
      updateEventStamps (l1 ++ l2) = updateEventStamps l1 ++ updateEventStamps l2 := by
  intro l1
  induction l1 with
  | nil => intro l2; rfl
  | cons e tl ih =>
    intro l2
    cases e <;> simp [updateEventStamps, ih]

theorem updateEventStamps_workerRun {γ α : Type} :
    ∀ (ws : List (WorkloadWithConfig γ α)) (a i : Nat),
      updateEventStamps (workerRun a i ws).1 =
        updateStamps a (ws.map (fun w => w.renderer_config_stamp)) := by
  intro ws
  induction ws with
  | nil => intro a i; rfl
  | cons w tl ih =>
    intro a i
    simp only [workerRun, List.map_cons, updateStamps]
    rw [updateEventStamps_append, ih, processEvents_snd]
    by_cases h : w.renderer_config_stamp ≠ a
    · rw [if_pos h]
      simp [processEvents, h, updateEventStamps]
    · rw [if_neg h]
      have h2 : w.renderer_config_stamp = a := not_not.mp h
      simp [processEvents, h2, updateEventStamps]

theorem updateStamps_mem_gt :
    ∀ (vs : List Nat) (a : Nat), List.Chain (· ≤ ·) a vs →
      ∀ u ∈ updateStamps a vs, a < u := by
  intro vs
  induction vs with
  | nil => intro a _ u hu; simp [updateStamps] at hu
  | cons v tl ih =>
    intro a hch u hu
    cases hch with
    | cons hav htl =>
      by_cases h : v ≠ a
      · rw [updateStamps, if_pos h] at hu
        rcases List.mem_cons.mp hu with rfl | hu2
        · omega
        · have := ih v htl u hu2
          omega
      · rw [updateStamps, if_neg h] at hu
        have h2 : v = a := not_not.mp h
        have := ih v htl u hu
        omega

theorem updateStamps_count_le_one :
    ∀ (vs : List Nat) (a : Nat), List.Chain (· ≤ ·) a vs →
      ∀ x, (updateStamps a vs).count x ≤ 1 := by
  intro vs
  induction vs with
  | nil => intro a _ x; simp [updateStamps]
  | cons v tl ih =>
    intro a hch x
    cases hch with
    | cons hav htl =>
      by_cases h : v ≠ a
      · by_cases hx : x = v
        · subst hx
          rw [updateStamps, if_pos h]
          have hzero : (updateStamps x tl).count x = 0 := by
            refine List.count_eq_zero.mpr fun hmem => ?_
            have := updateStamps_mem_gt tl x htl x hmem
            omega
          simp [List.count_cons, hzero]
        · rw [updateStamps, if_pos h]
          have hvx : (v == x) = false := by
            simp only [beq_eq_false_iff_ne]
            exact fun hc => hx hc.symm
          simpa [List.count_cons, hvx] using ih v htl x
      · rw [updateStamps, if_neg h]
        exact ih v htl x

theorem getLastD_take {α : Type} :
    ∀ (l : List α) (j : Nat) (d : α), j ≠ 0 → j ≤ l.length →
      (l.take j).getLastD d = l.getD (j - 1) d := by
  intro l
  induction l with
  | nil => intro j d hj hle; simp at hle; omega
  | cons x tl ih =>
    intro j d hj hle
    match j, hj with
    | 1, _ =>
      cases tl <;> simp [List.getLastD]
    | j + 2, _ =>
      have hlen : j + 1 ≤ tl.length := by
        simp only [List.length_cons] at hle
        omega
      have hjlt : j < tl.length := by omega
      rw [List.take_succ_cons, List.getLastD_cons]
      rw [ih (j + 1) x (by omega) hlen]
      show tl.getD j x = (x :: tl).getD (j + 2 - 1) d
      have h21 : j + 2 - 1 = j + 1 := by omega
      rw [h21, List.getD_cons_succ]
      rw [List.getD_eq_getElem?_getD, List.getD_eq_getElem?_getD,
        List.getElem?_eq_getElem hjlt]
      rfl

/-- C2: a worker (whose `renderer_config_stamp` starts at 0) processing a
sequence of stamped workloads whose stamps arrive in non-decreasing order —
which the dispatcher guarantees on every worker's subsequence when
submissions and updates are serialized: each submission is stamped with the
current counter and the shared queue is FIFO:
for every processed workload whose stamp differs from the worker's current
one, the run consists of the events before it, then exactly one
configuration-update RPC carrying that workload's config immediately
followed (strictly before any later event) by that workload's render RPC,
then the rest, and the worker's stamp becomes that workload's stamp; the
update RPC is issued at most once per distinct version; and the worker's
applied stamp is monotonically non-decreasing along the run. -/
theorem c2_config_update_per_worker {γ α : Type} (ws : List (WorkloadWithConfig γ α))
    (hch : List.Chain' (· ≤ ·) (ws.map (fun w => w.renderer_config_stamp))) :
    (∀ k (hk : k < ws.length),
      ((workerRun 0 0 ws).1 =
        (workerRun 0 0 (ws.take k)).1 ++
          ((if (ws.get ⟨k, hk⟩).renderer_config_stamp ≠ (workerRun 0 0 (ws.take k)).2 then
              [WorkerEvent.update (ws.get ⟨k, hk⟩).renderer_config_stamp
                  (ws.get ⟨k, hk⟩).renderer_config,
                WorkerEvent.render k]
            else [WorkerEvent.render k]) ++
            (workerRun (ws.get ⟨k, hk⟩).renderer_config_stamp (k + 1) (ws.drop (k + 1))).1)) ∧
      (workerRun 0 0 (ws.take (k + 1))).2 = (ws.get ⟨k, hk⟩).renderer_config_stamp) ∧
    (∀ v, (updateEventStamps (workerRun 0 0 ws).1).count v ≤ 1) ∧
    (∀ j k, j ≤ k → k ≤ ws.length →
      (workerRun 0 0 (ws.take j)).2 ≤ (workerRun 0 0 (ws.take k)).2) := by
  refine ⟨?_, ?_, ?_⟩
  · intro k hk
    have hget : ws.get ⟨k, hk⟩ = ws[k] := rfl
    have hsplit : ws = ws.take k ++ ws.get ⟨k, hk⟩ :: ws.drop (k + 1) := by
      conv_lhs => rw [← List.take_append_drop k ws]
      rw [hget, List.drop_eq_getElem_cons hk]
    have hlen : (ws.take k).length = k := by
      rw [List.length_take]
      omega
    have h1 := workerRun_append (ws.take k) (ws.get ⟨k, hk⟩ :: ws.drop (k + 1)) 0 0
    rw [← hsplit, hlen] at h1
    constructor
    · have hfst := congrArg Prod.fst h1
      simp only at hfst
      rw [Nat.zero_add] at hfst
      rw [hfst]
      simp only [workerRun]
      rw [processEvents_snd]
      congr 1
      congr 1
      simp only [processEvents]
      split <;> rfl
    · have htake : ws.take (k + 1) = ws.take k ++ [ws.get ⟨k, hk⟩] := by
        rw [List.take_succ, hget, List.getElem?_eq_getElem hk]
        rfl
      rw [htake, workerRun_append, hlen]
      simp only [workerRun, processEvents_snd]
  · intro v
    rw [updateEventStamps_workerRun]
    refine updateStamps_count_le_one _ 0 ?_ v
    cases hmap : ws.map (fun w => w.renderer_config_stamp) with
    | nil => exact List.Chain.nil
    | cons s tl =>
      rw [hmap] at hch
      exact List.Chain.cons (Nat.zero_le s) hch
  · intro j k hjk hk
    rcases Nat.eq_or_lt_of_le hjk with rfl | hlt
    · exact le_refl _
    · rw [workerRun_snd, workerRun_snd, List.map_take, List.map_take]
      by_cases hj0 : j = 0
      · subst hj0
        simp only [List.take_zero, List.getLastD_nil]
        exact Nat.zero_le _
      · have hk0 : k ≠ 0 := by omega
        have hlenstamps : (ws.map (fun w => w.renderer_config_stamp)).length = ws.length :=
          List.length_map _ _
        rw [getLastD_take _ j 0 hj0 (by omega), getLastD_take _ k 0 hk0 (by omega)]
        have hpw : List.Pairwise (· ≤ ·) (ws.map (fun w => w.renderer_config_stamp)) :=
          List.chain'_iff_pairwise.mp hch
        have hj1 : j - 1 < (ws.map (fun w => w.renderer_config_stamp)).length := by omega
        have hk1 : k - 1 < (ws.map (fun w => w.renderer_config_stamp)).length := by omega
        have hrel := List.pairwise_iff_get.mp hpw ⟨j - 1, hj1⟩ ⟨k - 1, hk1⟩ (by
          show j - 1 < k - 1
          omega)
        rw [List.getD_eq_getElem?_getD, List.getD_eq_getElem?_getD,
          List.getElem?_eq_getElem hj1, List.getElem?_eq_getElem hk1]
        simpa using hrel

/-- Witness for C2 on a concrete non-decreasing stamped run: version 1 is
updated at most once and the applied stamp is non-decreasing. -/
theorem c2_config_update_per_worker_witness :
    (updateEventStamps
        (workerRun 0 0
          [(⟨1, 10, 100⟩ : WorkloadWithConfig Nat Nat), ⟨1, 10, 101⟩, ⟨2, 20, 102⟩]).1).count 1
      ≤ 1 ∧
    (workerRun 0 0
        ([(⟨1, 10, 100⟩ : WorkloadWithConfig Nat Nat), ⟨1, 10, 101⟩, ⟨2, 20, 102⟩].take 1)).2 ≤
      (workerRun 0 0
        ([(⟨1, 10, 100⟩ : WorkloadWithConfig Nat Nat), ⟨1, 10, 101⟩, ⟨2, 20, 102⟩].take 3)).2 :=
  ⟨(c2_config_update_per_worker
      [(⟨1, 10, 100⟩ : WorkloadWithConfig Nat Nat), ⟨1, 10, 101⟩, ⟨2, 20, 102⟩]
      (by have h : List.map
            (fun w => w.renderer_config_stamp)
            [(⟨1, 10, 100⟩ : WorkloadWithConfig Nat Nat), ⟨1, 10, 101⟩, ⟨2, 20, 102⟩] =
            [1, 1, 2] := rfl
          rw [h]
          exact List.Chain.cons (by omega) (List.Chain.cons (by omega) List.Chain.nil))).2.1 1,
   (c2_config_update_per_worker
      [(⟨1, 10, 100⟩ : WorkloadWithConfig Nat Nat), ⟨1, 10, 101⟩, ⟨2, 20, 102⟩]
      (by have h : List.map
            (fun w => w.renderer_config_stamp)
            [(⟨1, 10, 100⟩ : WorkloadWithConfig Nat Nat), ⟨1, 10, 101⟩, ⟨2, 20, 102⟩] =
            [1, 1, 2] := rfl
          rw [h]
          exact List.Chain.cons (by omega)
            (List.Chain.cons (by omega) List.Chain.nil))).2.2 1 3 (by decide) (by decide)⟩

/-! ## Response decoding (C4) -/

theorem dictGet_dictSet_self {v : Type} :
    ∀ (ds : List (String × v)) (k : String) (x : v),
      dictGet (dictSet ds k x) k = some x := by
  intro ds
  induction ds with
  | nil => intro k x; simp [dictSet, dictGet]
  | cons p ds ih =>
    intro k x
    by_cases hp : (p.1 == k) = true
    · simp [dictSet, dictGet, hp]
    · simp only [dictSet, hp, Bool.false_eq_true, if_false, dictGet]
      exact ih k x

theorem dictGet_dictSet_ne {v : Type} :
    ∀ (ds : List (String × v)) (k k2 : String) (x : v), k ≠ k2 →
      dictGet (dictSet ds k x) k2 = dictGet ds k2 := by
  intro ds
  induction ds with
  | nil =>
    intro k k2 x hne
    simp only [dictSet, dictGet]
    rw [if_neg (by simpa using hne)]
  | cons p ds ih =>
    intro k k2 x hne
    by_cases hp : (p.1 == k) = true
    · have hpk : p.1 = k := by simpa using hp
      simp only [dictSet, hp, if_true, dictGet]
      rw [if_neg (by simpa using hne), if_neg (by rw [hpk]; simpa using hne)]
    · simp only [dictSet, hp, Bool.false_eq_true, if_false, dictGet]
      by_cases hp2 : (p.1 == k2) = true
      · rw [if_pos hp2, if_pos hp2]
      · rw [if_neg hp2, if_neg hp2]
        exact ih k k2 x hne

theorem dictGet_auxFold_not_mem {κ α β : Type} (batch : Nat) :
    ∀ (streams : List (AuxStream β × (β → α))) (ds : List (String × DsVal κ α)) (key : String),
      (∀ p ∈ streams, p.1.name ≠ key) →
      dictGet (streams.foldl (fun d p => _add_auxiliary_stream d batch p.1 p.2) ds) key =
        dictGet ds key := by
  intro streams
  induction streams with
  | nil => intro ds key _; rfl
  | cons q qs ih =>
    intro ds key hnames
    rw [List.foldl_cons]
    rw [ih _ key (fun p hp => hnames p (List.mem_cons_of_mem _ hp))]
    simp only [_add_auxiliary_stream]
    split
    · exact dictGet_dictSet_ne ds q.1.name key _ (hnames q (List.mem_cons_self _ _))
    · rfl

theorem convert_eq_auxFold {ι κ α β : Type} (rr rd rn rs : ι → κ) (dtF dtI dtB : β → α)
    (resp : RenderBatchResponse ι β) (batch : Nat) :
    _convert_render_batch_response rr rd rn rs dtF dtI dtB resp batch =
      (allAuxStreams resp dtF dtI dtB).foldl
        (fun d p => _add_auxiliary_stream d batch p.1 p.2)
        (resp.streams.foldl (convertStream rr rd rn rs) []) := by
  simp [_convert_render_batch_response, allAuxStreams, List.foldl_append, List.foldl_map]

theorem reshapeRows_shape {α : Type} (rows cols : Nat) (l : List α)
    (hl : l.length = rows * cols) :
    (reshapeRows rows cols l).length = rows ∧
    ∀ r ∈ reshapeRows rows cols l, r.length = cols := by
  refine ⟨by simp [reshapeRows], ?_⟩
  intro r hr
  simp only [reshapeRows, List.mem_map, List.mem_range] at hr
  obtain ⟨j, hj, hrow⟩ := hr
  have hle : j * cols + cols ≤ l.length := by
    rw [hl]
    have h1 : (j + 1) * cols ≤ rows * cols :=
      Nat.mul_le_mul_right cols (Nat.succ_le_of_lt hj)
    calc j * cols + cols = (j + 1) * cols := by ring
      _ ≤ rows * cols := h1
  rw [← hrow]
  rw [List.length_take, List.length_drop]
  omega

/-- C4: for every decoded render-batch response and every auxiliary stream:
when the (dtype-converted) data length divides evenly by the batch size the
stream is stored under its name reshaped to `(batch_size, length /
batch_size)`; otherwise the stream is merely logged and dropped, leaving the
dataset exactly as it was; the decode is total, every key not named by an
auxiliary stream keeps the value the image part gave it, and a divisible
stream not shadowed by a later auxiliary stream is present in the final
result with its reshaped rows. -/
theorem c4_auxiliary_stream_handling {ι κ α β : Type} (batch : Nat) (hb : 0 < batch) :
    (∀ (ds : List (String × DsVal κ α)) (s : AuxStream β) (dt : β → α),
      s.data.length % batch = 0 →
        _add_auxiliary_stream ds batch s dt =
          dictSet ds s.name
            (DsVal.aux (reshapeRows batch (s.data.length / batch) (s.data.map dt))) ∧
        (reshapeRows batch (s.data.length / batch) (s.data.map dt)).length = batch ∧
        (∀ row ∈ reshapeRows batch (s.data.length / batch) (s.data.map dt),
          row.length = s.data.length / batch)) ∧
    (∀ (ds : List (String × DsVal κ α)) (s : AuxStream β) (dt : β → α),
      ¬ s.data.length % batch = 0 → _add_auxiliary_stream ds batch s dt = ds) ∧
    (∀ (rr rd rn rs : ι → κ) (dtF dtI dtB : β → α) (resp : RenderBatchResponse ι β)
        (key : String),
      (∀ p ∈ allAuxStreams resp dtF dtI dtB, p.1.name ≠ key) →
        dictGet (_convert_render_batch_response rr rd rn rs dtF dtI dtB resp batch) key =
          dictGet (resp.streams.foldl (convertStream rr rd rn rs) []) key) ∧
    (∀ (rr rd rn rs : ι → κ) (dtF dtI dtB : β → α) (resp : RenderBatchResponse ι β)
        (pre post : List (AuxStream β × (β → α))) (s : AuxStream β) (dt : β → α),
      allAuxStreams resp dtF dtI dtB = pre ++ (s, dt) :: post →
      s.data.length % batch = 0 →
      (∀ p ∈ post, p.1.name ≠ s.name) →
        dictGet (_convert_render_batch_response rr rd rn rs dtF dtI dtB resp batch) s.name =
          some (DsVal.aux (reshapeRows batch (s.data.length / batch) (s.data.map dt)))) := by
  have hadd : ∀ (ds : List (String × DsVal κ α)) (s : AuxStream β) (dt : β → α),
      s.data.length % batch = 0 →
      _add_auxiliary_stream ds batch s dt =
        dictSet ds s.name
          (DsVal.aux (reshapeRows batch (s.data.length / batch) (s.data.map dt))) := by
    intro ds s dt hdiv
    unfold _add_auxiliary_stream
    rw [if_pos (by simpa using hdiv)]
    rw [List.length_map]
  refine ⟨?_, ?_, ?_, ?_⟩
  · intro ds s dt hdiv
    refine ⟨hadd ds s dt hdiv, ?_⟩
    have hlen : (s.data.map dt).length = batch * (s.data.length / batch) := by
      rw [List.length_map]
      exact (Nat.div_mul_cancel (Nat.dvd_of_mod_eq_zero hdiv)).symm ▸
        (Nat.mul_div_cancel' (Nat.dvd_of_mod_eq_zero hdiv)).symm
    exact reshapeRows_shape batch (s.data.length / batch) (s.data.map dt) hlen
  · intro ds s dt hdiv
    unfold _add_auxiliary_stream
    rw [if_neg (by simpa using hdiv)]
  · intro rr rd rn rs dtF dtI dtB resp key hkeys
    rw [convert_eq_auxFold]
    exact dictGet_auxFold_not_mem batch _ _ key hkeys
  · intro rr rd rn rs dtF dtI dtB resp pre post s dt hsplit hdiv hpost
    rw [convert_eq_auxFold, hsplit, List.foldl_append, List.foldl_cons]
    rw [dictGet_auxFold_not_mem batch post _ s.name hpost]
    rw [hadd _ s dt hdiv]
    exact dictGet_dictSet_self _ s.name _

/-- Witness for C4: with batch size 2, the stream `aux` of length 4 is added
reshaped to 2×2, the stream `bad` of length 3 is dropped leaving the dataset
untouched, and in a full response decode `aux` ends up present (reshaped)
while the image key `cam` keeps its value. -/
theorem c4_auxiliary_stream_handling_witness :
    _add_auxiliary_stream [("cam", DsVal.img ([9] : List Nat))] 2
        (⟨"aux", [1, 2, 3, 4]⟩ : AuxStream Nat) id =
      dictSet [("cam", DsVal.img ([9] : List Nat))] "aux"
        (DsVal.aux [[1, 2], [3, 4]]) ∧
    _add_auxiliary_stream [("cam", DsVal.img ([9] : List Nat))] 2
        (⟨"bad", [1, 2, 3]⟩ : AuxStream Nat) id =
      [("cam", DsVal.img ([9] : List Nat))] ∧
    dictGet
        (_convert_render_batch_response (ι := Nat) (κ := Nat) (α := Nat) (β := Nat)
          id id id id id id id
          ⟨[⟨"cam", [⟨some 1, none, none, none⟩]⟩],
            [⟨"aux", [1, 2, 3, 4]⟩], [⟨"bad", [1, 2, 3]⟩], []⟩ 2)
        "aux" =
      some (DsVal.aux [[1, 2], [3, 4]]) :=
  ⟨((c4_auxiliary_stream_handling (ι := Nat) 2 (by decide)).1
      [("cam", DsVal.img ([9] : List Nat))] (⟨"aux", [1, 2, 3, 4]⟩ : AuxStream Nat) id
      (by decide)).1,
   (c4_auxiliary_stream_handling (ι := Nat) 2 (by decide)).2.1
      [("cam", DsVal.img ([9] : List Nat))] (⟨"bad", [1, 2, 3]⟩ : AuxStream Nat) id
      (by decide),
   (c4_auxiliary_stream_handling 2 (by decide)).2.2.2 id id id id id id id
      ⟨[⟨"cam", [⟨some 1, none, none, none⟩]⟩],
        [⟨"aux", [1, 2, 3, 4]⟩], [⟨"bad", [1, 2, 3]⟩], []⟩
      [] [(⟨"bad", [1, 2, 3]⟩, id)] (⟨"aux", [1, 2, 3, 4]⟩ : AuxStream Nat) id
      rfl (by decide) (by decide)⟩

/-! ## Request building (C8) -/

theorem buildEntriesFrom_no_entry_seeds {σ : Type} (seeds : List Int) :
    ∀ (qs : List σ) (i : Nat),
      buildEntriesFrom false seeds i qs =
        Except.ok (qs.map (fun q => (⟨q, 0⟩ : RequestEntry σ))) := by
  intro qs
  induction qs with
  | nil => intro i; rfl
  | cons q qs ih =>
    intro i
    simp only [buildEntriesFrom, Bool.false_eq_true, if_false, ih (i + 1), List.map_cons]
    rfl

theorem buildEntriesFrom_entry_seeds {σ : Type} (seeds : List Int) :
    ∀ (qs : List σ) (i : Nat), i + qs.length ≤ seeds.length →
      buildEntriesFrom true seeds i qs =
        Except.ok (qs.zipWith (fun q s => (⟨q, s⟩ : RequestEntry σ)) (seeds.drop i)) := by
  intro qs
  induction qs with
  | nil => intro i _; rfl
  | cons q qs ih =>
    intro i hi
    have hlt : i < seeds.length := by
      simp only [List.length_cons] at hi
      omega
    have hget : seeds[i]? = some seeds[i] := List.getElem?_eq_getElem hlt
    have hdrop : seeds.drop i = seeds[i] :: seeds.drop (i + 1) :=
      List.drop_eq_getElem_cons hlt
    have hrest := ih (i + 1) (by simp only [List.length_cons] at hi; omega)
    simp only [buildEntriesFrom, if_true, hget, hrest, hdrop, List.zipWith_cons_cons]
    rfl

/-- C8: for a workload supplying state vectors together with exactly one of
a single batch seed or one seed per entry, the built request has one entry
per state vector in the original order; `use_entry_seeds` is true exactly
when per-entry seeds were supplied, in which case entry `i` carries
`seeds[i]`; a single batch seed is truncated modulo `2^31` into
`batch_seed`; and the reported batch size is the number of state vectors. -/
theorem c8_build_render_batch_request {σ : Type} (w : Workload σ)
    (config : RemoteRendererConfig) :
    (∀ s, w.seed = some s → w.seeds = none →
      _build_render_batch_request w config =
        Except.ok
          ({ width := config.image_width
             height := config.image_height
             batch_seed := s % ((1 : Int) <<< 31)
             use_entry_seeds := false
             render_alpha := config.render_alpha
             render_depth := config.render_depth
             render_normals := config.render_normals
             render_segmentation := config.render_segmentation
             entries := w.qpos.map (fun q => ⟨q, 0⟩)
             camera_names := config.camera_names }, w.qpos.length)) ∧
    (∀ ss, w.seed = none → w.seeds = some ss → ss.length = w.qpos.length →
      _build_render_batch_request w config =
        Except.ok
          ({ width := config.image_width
             height := config.image_height
             batch_seed := 0
             use_entry_seeds := true
             render_alpha := config.render_alpha
             render_depth := config.render_depth
             render_normals := config.render_normals
             render_segmentation := config.render_segmentation
             entries := w.qpos.zipWith (fun q s => ⟨q, s⟩) ss
             camera_names := config.camera_names }, w.qpos.length)) := by
  constructor
  · intro s hseed hseeds
    simp only [_build_render_batch_request, useEntrySeedsOf, hseed, hseeds, Option.getD_none,
      buildEntriesFrom_no_entry_seeds ([] : List Int) w.qpos 0]
  · intro ss hseed hseeds hlen
    have hentries := buildEntriesFrom_entry_seeds ss w.qpos 0 (by omega)
    simp only [_build_render_batch_request, useEntrySeedsOf, hseed, hseeds, Option.getD_some,
      hentries, List.drop_zero]

/-- Witness for C8: a two-entry workload with a lone batch seed, and one
with per-entry seeds. -/
theorem c8_build_render_batch_request_witness :
    _build_render_batch_request
        (⟨some 5, none, [11, 12]⟩ : Workload Nat)
        ⟨["cam"], false, false, false, false, 64, 48⟩ =
      Except.ok
        ({ width := 64
           height := 48
           batch_seed := (5 : Int) % ((1 : Int) <<< 31)
           use_entry_seeds := false
           render_alpha := false
           render_depth := false
           render_normals := false
           render_segmentation := false
           entries := ([11, 12] : List Nat).map (fun q => ⟨q, 0⟩)
           camera_names := ["cam"] }, ([11, 12] : List Nat).length) ∧
    _build_render_batch_request
        (⟨none, some [3, 4], [11, 12]⟩ : Workload Nat)
        ⟨["cam"], false, false, false, false, 64, 48⟩ =
      Except.ok
        ({ width := 64
           height := 48
           batch_seed := 0
           use_entry_seeds := true
           render_alpha := false
           render_depth := false
           render_normals := false
           render_segmentation := false
           entries := ([11, 12] : List Nat).zipWith (fun q s => ⟨q, s⟩) [3, 4]
           camera_names := ["cam"] }, ([11, 12] : List Nat).length) :=
  ⟨(c8_build_render_batch_request (⟨some 5, none, [11, 12]⟩ : Workload Nat)
      ⟨["cam"], false, false, false, false, 64, 48⟩).1 5 rfl rfl,
   (c8_build_render_batch_request (⟨none, some [3, 4], [11, 12]⟩ : Workload Nat)
      ⟨["cam"], false, false, false, false, 64, 48⟩).2 [3, 4] rfl rfl (by decide)⟩

/-- Witness for C9 at a concrete dispatcher state and update sequence. -/
theorem c9_update_monotone_versions_witness :
    (update (⟨0, 0, [], [], fun _ => []⟩ : RemoteRendererState Nat Nat Nat) 5).renderer_config_stamp =
      0 + 1 ∧
    (([7, 9].take 1).foldl update
        (⟨0, 0, [], [], fun _ => []⟩ : RemoteRendererState Nat Nat Nat)).renderer_config_stamp <
      (([7, 9].take 2).foldl update
        (⟨0, 0, [], [], fun _ => []⟩ : RemoteRendererState Nat Nat Nat)).renderer_config_stamp :=
  ⟨(c9_update_monotone_versions (⟨0, 0, [], [], fun _ => []⟩ : RemoteRendererState Nat Nat Nat)
      5 [7, 9]).1,
   (c9_update_monotone_versions (⟨0, 0, [], [], fun _ => []⟩ : RemoteRendererState Nat Nat Nat)
      5 [7, 9]).2.2.2.2.2.2 1 2 (by decide) (by decide)⟩

end Orrb
